import Mathlib
namespace Mwtab

/-- Python strings are modelled as lists of characters. -/
abbrev Str := List Char

/-- Characters of a Lean string literal, used to write concrete inputs. -/
def chars (s : String) : Str := s.data

/-- Whitespace stripped by Python `str.strip()` (ASCII whitespace). -/
def isPySpace (c : Char) : Bool :=
  c == ' ' || c == '\t' || c == '\n' || c == '\r' || c == '\x0b' || c == '\x0c'

/-- Python `line.strip()`: remove leading and trailing whitespace. -/
def pyStrip (s : Str) : Str :=
  ((s.dropWhile isPySpace).reverse.dropWhile isPySpace).reverse

/-- Python `s.startswith(p)`. -/
def pyStartsWith (s p : Str) : Bool := p.isPrefixOf s

/-- Python `s.endswith(p)`. -/
def pyEndsWith (s p : Str) : Bool := p.isSuffixOf s

/-- Python `pat in s` for a (non-empty) pattern string `pat`. -/
def containsSeq (pat : Str) : Str → Bool
  | [] => pat == []
  | c :: rest => pat.isPrefixOf (c :: rest) || containsSeq pat rest

/-- Python `s.split(sep)` for a one-character separator `sep`
(all separators used by the tokenizer are single characters). -/
def splitChar (sep : Char) : Str → List Str
  | [] => [[]]
  | c :: rest =>
    if c = sep then [] :: splitChar sep rest
    else
      match splitChar sep rest with
      | r :: rs => (c :: r) :: rs
      | [] => [[c]]

/-- The value slot of a `KeyValue` token: either a string (`"\n"` for
markers, the second tab field for item lines) or the tuple of tab-split
fields of a data-block row. -/
inductive Value where
  | str (s : Str)
  | tup (fields : List Str)
deriving DecidableEq, Repr

/-- The three namedtuple token shapes of `mwtab.tokenizer`. -/
inductive Token where
  | KeyValue (key : Str) (value : Value)
  | KeyValueExtra (key : Str) (value : Str) (extra : List (List Str))
  | SubjectSampleFactors (key subject_type local_sample_id : Str)
      (factors : List (Str × Str)) (additional_sample_data : List (Str × Str))
deriving DecidableEq, Repr

/-- Exceptions that can escape `tokenizer`: the re-raised `ValueError`
carrying the offending line, and the two uncaught `IndexError`s
(list subscript out of range; `popleft` from an empty deque). -/
inductive MwErr where
  | valueError (line : Str)
  | listIndexOutOfRange
  | popFromEmptyDeque
deriving DecidableEq, Repr

/-- The `"\n"` value carried by marker tokens. -/
def newlineVal : Value := Value.str (chars "\n")

/-- The `#ENDSECTION` sentinel token. -/
def endSectionTok : Token := Token.KeyValue (chars "#ENDSECTION") newlineVal

/-- The `!#ENDFILE` sentinel token, always the last token of a
successful run. -/
def endFileTok : Token := Token.KeyValue (chars "!#ENDFILE") newlineVal

/-- Python `dict` assignment `d[k] = v`: if the key is present its value
is overwritten in place (insertion order kept), otherwise the pair is
appended. -/
def dictInsert (d : List (Str × Str)) (k v : Str) : List (Str × Str) :=
  if (d.map Prod.fst).contains k then
    d.map (fun p => if p.1 = k then (k, v) else p)
  else d ++ [(k, v)]

/-- Folding a list of key/value pairs into a Python dict (line 66 dict
comprehension and the lines 67-71 loop both build their dict this way). -/
def buildDict (pairs : List (Str × Str)) : List (Str × Str) :=
  pairs.foldl (fun d p => dictInsert d p.1 p.2) []

/-- The pairs produced by the line 66 dict comprehension, in evaluation
order: each `|`-separated segment is split on `":"`; the pair is
`(split[0].strip(), split[1].strip())`; a segment whose split has no
second element raises an uncaught `IndexError`. -/
def factorPairs : List Str → Except MwErr (List (Str × Str))
  | [] => Except.ok []
  | seg :: rest =>
    match splitChar ':' seg with
    | k :: v :: _ =>
      match factorPairs rest with
      | Except.ok ps => Except.ok ((pyStrip k, pyStrip v) :: ps)
      | Except.error e => Except.error e
    | _ => Except.error MwErr.listIndexOutOfRange

/-- The pairs produced by the lines 68-71 loop: each `;`-separated item
containing `"="` is split on `"="` and must give exactly two parts
(otherwise the unpacking `ValueError` is re-raised with the line);
items without `"="` are skipped. -/
def additionalPairs (line : Str) : List Str → Except MwErr (List (Str × Str))
  | [] => Except.ok []
  | item :: rest =>
    if item.contains '=' then
      match splitChar '=' item with
      | [k, v] =>
        match additionalPairs line rest with
        | Except.ok ps => Except.ok ((pyStrip k, pyStrip v) :: ps)
        | Except.error e => Except.error e
      | _ => Except.error (MwErr.valueError line)
    else additionalPairs line rest

/-- Lines 63-74: a `SUBJECT_SAMPLE_FACTORS` data row.  The line must
tab-split into exactly five fields (otherwise the unpacking `ValueError`
is re-raised with the line); the two auxiliary dicts are then built. -/
def parseSSF (line : Str) : Except MwErr Token :=
  match splitChar '\t' line with
  | [key, subject_type, local_sample_id, factors, additional_sample_data] =>
    match factorPairs (splitChar '|' factors) with
    | Except.error e => Except.error e
    | Except.ok fps =>
      match additionalPairs line (splitChar ';' additional_sample_data) with
      | Except.error e => Except.error e
      | Except.ok aps =>
        Except.ok (Token.SubjectSampleFactors (pyStrip key) subject_type local_sample_id
          (buildDict fps) (buildDict aps))
  | _ => Except.error (MwErr.valueError line)

/-- Lines 44-50: the loop over the space-separated pieces of a
`#METABOLOMICS WORKBENCH` line.  Pieces without `":"` are skipped; a
piece containing `":"` is split on `":"` and unpacked into exactly two
parts, yielding a `KeyValue`; more than two parts raises the unpacking
`ValueError`, re-raised with the line, after the earlier tokens were
already yielded. -/
def headerIds (line : Str) : List Str → List Token × Option MwErr
  | [] => ([], none)
  | ident :: rest =>
    if ident.contains ':' then
      match splitChar ':' ident with
      | [k, v] =>
        (Token.KeyValue k (Value.str v) :: (headerIds line rest).1, (headerIds line rest).2)
      | _ => ([], some (MwErr.valueError line))
    else headerIds line rest

/-- The row token of a data-block line (line 86-87): key is the first
tab-split field, value the tuple of all tab-split fields. -/
def rowToken (line : Str) : Token :=
  Token.KeyValue ((splitChar '\t' line).headD []) (Value.tup (splitChar '\t' line))

/-- Lines 90-110: an item line inside a section.  Empty lines yield
nothing.  Lines containing `_RESULTS_FILE` are tab-split: with more than
two fields the fields beyond the second that contain `":"` become the
`extra` of a `KeyValueExtra`; with exactly two fields a plain `KeyValue`
is produced; with a single field the subscript `line_items[1]` raises an
uncaught `IndexError`.  Other lines are tab-split and unpacked into
exactly two fields (otherwise the `ValueError` is re-raised with the
line), with the key normalisation of lines 102-108. -/
def stepItem (line : Str) : List Token × Option MwErr :=
  if line = [] then ([], none)
  else if containsSeq (chars "_RESULTS_FILE") line then
    let line_items := splitChar '\t' line
    if 2 < line_items.length then
      let extra_items := ((line_items.drop 2).filter (fun e => e.contains ':')).map (splitChar ':')
      ([Token.KeyValueExtra ((pyStrip (line_items.headD [])).drop 3) (line_items.getD 1 [])
          extra_items], none)
    else
      match line_items with
      | [k, v] => ([Token.KeyValue ((pyStrip k).drop 3) (Value.str v)], none)
      | _ => ([], some MwErr.listIndexOutOfRange)
  else
    match splitChar '\t' line with
    | [key, value] =>
      if key.contains ':' then
        if pyEndsWith key (chars "_METABOLITE_DATA:UNITS") then
          ([Token.KeyValue (chars "Units") (Value.str value)], none)
        else ([Token.KeyValue ((pyStrip key).drop 3) (Value.str value)], none)
      else ([Token.KeyValue (pyStrip key) (Value.str value)], none)
    | _ => ([], some (MwErr.valueError line))

/-- The two modes of the line-driven state machine: `normal` is the top
of the `while` loop; `inBlock` is the inner
`while not line.endswith("_END")` loop of an open `_START` block. -/
inductive Mode where
  | normal
  | inBlock
deriving DecidableEq, Repr

/-- Result of processing one input line: the tokens yielded, an optional
raised exception, and the mode in which the next line is processed. -/
structure StepRes where
  toks : List Token
  err : Option MwErr
  next : Mode
deriving DecidableEq, Repr

/-- Lines 40-110: processing of one line at the top of the `while`
loop, following the `elif` chain in source order. -/
def stepNormal (line : Str) : StepRes :=
  if pyStartsWith line (chars "#METABOLOMICS WORKBENCH") then
    let r := headerIds line (splitChar ' ' line)
    ⟨Token.KeyValue (chars "#METABOLOMICS WORKBENCH") newlineVal :: r.1, r.2, Mode.normal⟩
  else if pyStartsWith line (chars "#SUBJECT_SAMPLE_FACTORS:") then
    ⟨[endSectionTok, Token.KeyValue (chars "#SUBJECT_SAMPLE_FACTORS") newlineVal],
      none, Mode.normal⟩
  else if pyStartsWith line (chars "#") then
    ⟨[endSectionTok, Token.KeyValue (pyStrip line) newlineVal], none, Mode.normal⟩
  else if pyStartsWith line (chars "SUBJECT_SAMPLE_FACTORS") then
    match parseSSF line with
    | Except.ok t => ⟨[t], none, Mode.normal⟩
    | Except.error e => ⟨[], some e, Mode.normal⟩
  else if pyEndsWith line (chars "_START") then
    ⟨[Token.KeyValue line newlineVal], none, Mode.inBlock⟩
  else
    let r := stepItem line
    ⟨r.1, r.2, Mode.normal⟩

/-- Lines 81-87: processing of one line popped inside an open data
block: a line ending with `_END` yields the stripped close marker and
leaves the block; any other line yields its row token. -/
def stepBlock (line : Str) : StepRes :=
  if pyEndsWith line (chars "_END") then
    ⟨[Token.KeyValue (pyStrip line) newlineVal], none, Mode.normal⟩
  else
    ⟨[rowToken line], none, Mode.inBlock⟩

/-- One step of the machine in the given mode. -/
def stepOf : Mode → Str → StepRes
  | Mode.normal, line => stepNormal line
  | Mode.inBlock, line => stepBlock line

/-- The whole generator run over the remaining lines: on exhaustion in
`normal` mode the two sentinels are yielded (lines 112-114); exhaustion
in `inBlock` mode is the `stream.popleft()` on an empty deque (line 82),
an uncaught `IndexError`. -/
def run : Mode → List Str → List Token × Option MwErr
  | Mode.normal, [] => ([endSectionTok, endFileTok], none)
  | Mode.inBlock, [] => ([], some MwErr.popFromEmptyDeque)
  | m, line :: rest =>
    match (stepOf m line).err with
    | some e => ((stepOf m line).toks, some e)
    | none =>
      ((stepOf m line).toks ++ (run (stepOf m line).next rest).1,
        (run (stepOf m line).next rest).2)

/-- Line 35 and the main loop: `tokenizer(text)` splits the text on
newlines and runs the machine from `normal` mode. -/
def tokenizer (text : Str) : List Token × Option MwErr :=
  run Mode.normal (splitChar '\n' text)

/-- Text of a segment before its first colon (claim-side phrasing used
by C4). -/
def beforeColon (s : Str) : Str := s.takeWhile (fun c => c != ':')

/-- Text of a segment strictly after its first colon (empty when the
segment has no colon); claim-side phrasing used by C4. -/
def afterColon (s : Str) : Str := (s.dropWhile (fun c => c != ':')).tail

/-- Text of a segment strictly between its first and second colons (up
to the end when there is no second colon); claim-side phrasing used by
C4's amendment. -/
def betweenColons (s : Str) : Str := beforeColon (afterColon s)


theorem splitChar_of_not_mem {sep : Char} {s : Str} (h : sep ∉ s) : splitChar sep s = [s] := by
  induction s with
  | nil => rfl
  | cons c rest ih =>
    have hc : ¬ c = sep := fun hh => h (hh ▸ List.mem_cons_self c rest)
    have hr : sep ∉ rest := fun hh => h (List.mem_cons_of_mem c hh)
    simp [splitChar, hc, ih hr]

theorem splitChar_append_cons {sep : Char} {a b : Str} (h : sep ∉ a) :
    splitChar sep (a ++ sep :: b) = a :: splitChar sep b := by
  induction a with
  | nil => simp [splitChar]
  | cons c r ih =>
    have hc : ¬ c = sep := fun hh => h (hh ▸ List.mem_cons_self c r)
    have hr : sep ∉ r := fun hh => h (List.mem_cons_of_mem c hh)
    simp [splitChar, hc, ih hr]

theorem splitChar_ne_nil {sep : Char} {s : Str} : splitChar sep s ≠ [] := by
  induction s with
  | nil => simp [splitChar]
  | cons c rest ih =>
    by_cases hc : c = sep
    · simp [splitChar, hc]
    · simp only [splitChar, if_neg hc]
      cases hs : splitChar sep rest with
      | nil => simp
      | cons r rs => simp

theorem mem_of_two_le_splitChar {sep : Char} {s : Str}
    (h : 2 ≤ (splitChar sep s).length) : sep ∈ s := by
  by_contra hn
  rw [splitChar_of_not_mem hn] at h
  simp at h

theorem splitChar_of_mem {sep : Char} {s : Str} (h : sep ∈ s) :
    splitChar sep s =
      (s.takeWhile (fun c => c != sep)) ::
        splitChar sep ((s.dropWhile (fun c => c != sep)).tail) := by
  induction s with
  | nil => simp at h
  | cons c rest ih =>
    by_cases hc : c = sep
    · subst hc
      simp [splitChar, List.takeWhile, List.dropWhile]
    · have hr : sep ∈ rest := by
        rcases List.mem_cons.mp h with h1 | h1
        · exact absurd h1.symm hc
        · exact h1
      have hb : (c != sep) = true := by simp [hc]
      simp only [splitChar, if_neg hc, ih hr, List.takeWhile_cons, List.dropWhile_cons, hb,
        if_pos trivial]

theorem pyStartsWith_iff {s p : Str} : pyStartsWith s p = true ↔ p <+: s := by
  unfold pyStartsWith
  induction p generalizing s with
  | nil => simp [List.isPrefixOf]
  | cons a p ih =>
    cases s with
    | nil => simp [List.isPrefixOf]
    | cons b s =>
      simp only [List.isPrefixOf, List.cons_prefix_cons, Bool.and_eq_true, beq_iff_eq]
      exact and_congr Iff.rfl (ih)

theorem pyStartsWith_down {s p q : Str} (hq : q <+: p) (h : pyStartsWith s p = true) :
    pyStartsWith s q = true :=
  pyStartsWith_iff.mpr (hq.trans (pyStartsWith_iff.mp h))

theorem pyStartsWith_false_down {s p q : Str} (hq : q <+: p) (h : pyStartsWith s q = false) :
    pyStartsWith s p = false := by
  cases hb : pyStartsWith s p with
  | false => rfl
  | true => rw [pyStartsWith_down hq hb] at h; cases h

theorem startsWith_head_clash {c c' : Char} {t t' s : Str} (hne : c ≠ c')
    (h : pyStartsWith s (c :: t) = true) : pyStartsWith s (c' :: t') = false := by
  cases hb : pyStartsWith s (c' :: t') with
  | false => rfl
  | true =>
    exfalso
    obtain ⟨u, hu⟩ := pyStartsWith_iff.mp h
    obtain ⟨u', hu'⟩ := pyStartsWith_iff.mp hb
    rw [← hu'] at hu
    simp only [List.cons_append] at hu
    exact hne (List.cons.injEq .. ▸ hu).1

theorem run_cons_err {m : Mode} {line : Str} {rest : List Str} {e : MwErr}
    (h : (stepOf m line).err = some e) :
    run m (line :: rest) = ((stepOf m line).toks, some e) := by
  cases m <;> simp only [run, h]

theorem run_cons_ok {m : Mode} {line : Str} {rest : List Str}
    (h : (stepOf m line).err = none) :
    run m (line :: rest) =
      ((stepOf m line).toks ++ (run (stepOf m line).next rest).1,
        (run (stepOf m line).next rest).2) := by
  cases m <;> simp only [run, h]

theorem hashPrecedesMw : chars "#" <+: chars "#METABOLOMICS WORKBENCH" :=
  ⟨chars "METABOLOMICS WORKBENCH", rfl⟩

theorem hashPrecedesSsfh : chars "#" <+: chars "#SUBJECT_SAMPLE_FACTORS:" :=
  ⟨chars "SUBJECT_SAMPLE_FACTORS:", rfl⟩

theorem ssf_not_hash {line : Str}
    (h : pyStartsWith line (chars "SUBJECT_SAMPLE_FACTORS") = true) :
    pyStartsWith line (chars "#") = false := by
  have h1 : chars "SUBJECT_SAMPLE_FACTORS" = 'S' :: chars "UBJECT_SAMPLE_FACTORS" := rfl
  have h2 : chars "#" = '#' :: chars "" := rfl
  rw [h1] at h
  rw [h2]
  exact startsWith_head_clash (by decide) h

theorem stepNormal_item {line : Str}
    (h1 : pyStartsWith line (chars "#") = false)
    (h2 : pyStartsWith line (chars "SUBJECT_SAMPLE_FACTORS") = false)
    (h3 : pyEndsWith line (chars "_START") = false) :
    stepNormal line = ⟨(stepItem line).1, (stepItem line).2, Mode.normal⟩ := by
  have hmw := pyStartsWith_false_down hashPrecedesMw h1
  have hsh := pyStartsWith_false_down hashPrecedesSsfh h1
  simp [stepNormal, hmw, hsh, h1, h2, h3]

theorem stepNormal_start {line : Str}
    (h1 : pyStartsWith line (chars "#") = false)
    (h2 : pyStartsWith line (chars "SUBJECT_SAMPLE_FACTORS") = false)
    (h3 : pyEndsWith line (chars "_START") = true) :
    stepNormal line = ⟨[Token.KeyValue line newlineVal], none, Mode.inBlock⟩ := by
  have hmw := pyStartsWith_false_down hashPrecedesMw h1
  have hsh := pyStartsWith_false_down hashPrecedesSsfh h1
  simp [stepNormal, hmw, hsh, h1, h2, h3]

theorem stepNormal_ssf {line : Str}
    (h : pyStartsWith line (chars "SUBJECT_SAMPLE_FACTORS") = true) :
    stepNormal line =
      match parseSSF line with
      | Except.ok t => ⟨[t], none, Mode.normal⟩
      | Except.error e => ⟨[], some e, Mode.normal⟩ := by
  have hh := ssf_not_hash h
  have hmw := pyStartsWith_false_down hashPrecedesMw hh
  have hsh := pyStartsWith_false_down hashPrecedesSsfh hh
  simp [stepNormal, hmw, hsh, hh, h]

theorem stepNormal_header {line : Str}
    (h : pyStartsWith line (chars "#METABOLOMICS WORKBENCH") = true) :
    stepNormal line =
      ⟨Token.KeyValue (chars "#METABOLOMICS WORKBENCH") newlineVal ::
          (headerIds line (splitChar ' ' line)).1,
        (headerIds line (splitChar ' ' line)).2, Mode.normal⟩ := by
  simp [stepNormal, h]

theorem run_inBlock_closes {M : List Str} {E : Str} {rest : List Str}
    (hM : ∀ m ∈ M, pyEndsWith m (chars "_END") = false)
    (hE : pyEndsWith E (chars "_END") = true) :
    run Mode.inBlock (M ++ E :: rest) =
      (M.map rowToken ++ Token.KeyValue (pyStrip E) newlineVal :: (run Mode.normal rest).1,
        (run Mode.normal rest).2) := by
  induction M with
  | nil =>
    have hs : stepOf Mode.inBlock E = ⟨[Token.KeyValue (pyStrip E) newlineVal], none, Mode.normal⟩ := by
      simp [stepOf, stepBlock, hE]
    simp only [List.nil_append, List.map_nil]
    rw [run_cons_ok (by rw [hs])]
    rw [hs]
    simp
  | cons m M ih =>
    have hm : pyEndsWith m (chars "_END") = false := hM m (List.mem_cons_self m M)
    have hM' : ∀ x ∈ M, pyEndsWith x (chars "_END") = false :=
      fun x hx => hM x (List.mem_cons_of_mem m hx)
    have hs : stepOf Mode.inBlock m = ⟨[rowToken m], none, Mode.inBlock⟩ := by
      simp [stepOf, stepBlock, hm]
    simp only [List.cons_append, List.map_cons]
    rw [run_cons_ok (by rw [hs])]
    rw [hs, ih hM']
    simp

theorem run_inBlock_no_end {lines : List Str}
    (h : ∀ l ∈ lines, pyEndsWith l (chars "_END") = false) :
    run Mode.inBlock lines = (lines.map rowToken, some MwErr.popFromEmptyDeque) := by
  induction lines with
  | nil => simp [run]
  | cons l rest ih =>
    have hl : pyEndsWith l (chars "_END") = false := h l (List.mem_cons_self l rest)
    have hr : ∀ x ∈ rest, pyEndsWith x (chars "_END") = false :=
      fun x hx => h x (List.mem_cons_of_mem l hx)
    have hs : stepOf Mode.inBlock l = ⟨[rowToken l], none, Mode.inBlock⟩ := by
      simp [stepOf, stepBlock, hl]
    rw [run_cons_ok (by rw [hs])]
    rw [hs, ih hr]
    simp

theorem run_success_suffix : ∀ (lines : List Str) (m : Mode),
    (run m lines).2 = none →
    ∃ ts, (run m lines).1 = ts ++ [endSectionTok, endFileTok] := by
  intro lines
  induction lines with
  | nil =>
    intro m h
    cases m with
    | normal => exact ⟨[], rfl⟩
    | inBlock => simp [run] at h
  | cons line rest ih =>
    intro m h
    cases he : (stepOf m line).err with
    | some e => rw [run_cons_err he] at h; simp at h
    | none =>
      rw [run_cons_ok he] at h ⊢
      obtain ⟨ts, hts⟩ := ih (stepOf m line).next h
      exact ⟨(stepOf m line).toks ++ ts, by rw [hts, List.append_assoc]⟩

theorem contains_eq_true_iff {α : Type} [BEq α] [LawfulBEq α] {l : List α} {a : α} :
    l.contains a = true ↔ a ∈ l := by
  simp [List.contains]

theorem lookup_map_update_self {d : List (Str × Str)} {k v : Str}
    (hmem : k ∈ d.map Prod.fst) :
    List.lookup k (d.map (fun p => if p.1 = k then (k, v) else p)) = some v := by
  induction d with
  | nil => simp at hmem
  | cons p d ih =>
    rcases eq_or_ne p.1 k with hp | hp
    · simp only [List.map_cons]
      rw [if_pos hp]
      simp [List.lookup]
    · have hm' : k ∈ d.map Prod.fst := by
        simp only [List.map_cons, List.mem_cons] at hmem
        rcases hmem with h1 | h1
        · exact absurd h1.symm hp
        · exact h1
      have hkp : (k == p.1) = false := beq_eq_false_iff_ne.mpr (Ne.symm hp)
      simp only [List.map_cons]
      rw [if_neg hp]
      simp only [List.lookup, hkp]
      exact ih hm'

theorem lookup_append_self {d : List (Str × Str)} {k v : Str}
    (hmem : k ∉ d.map Prod.fst) :
    List.lookup k (d ++ [(k, v)]) = some v := by
  induction d with
  | nil => simp [List.lookup]
  | cons p d ih =>
    have hp : k ≠ p.1 := fun hh => hmem (by simp [hh])
    have hm' : k ∉ d.map Prod.fst := fun hh => hmem (by simp; right; simpa using hh)
    have hkp : (k == p.1) = false := beq_eq_false_iff_ne.mpr hp
    simp only [List.cons_append, List.lookup, hkp]
    exact ih hm'

theorem lookup_dictInsert_self (d : List (Str × Str)) (k v : Str) :
    List.lookup k (dictInsert d k v) = some v := by
  unfold dictInsert
  by_cases hmem : k ∈ d.map Prod.fst
  · rw [if_pos (contains_eq_true_iff.mpr hmem)]
    exact lookup_map_update_self hmem
  · rw [if_neg (fun hh => hmem (contains_eq_true_iff.mp hh))]
    exact lookup_append_self hmem

theorem lookup_dictInsert_ne (d : List (Str × Str)) {k k' : Str} (v : Str) (h : k' ≠ k) :
    List.lookup k' (dictInsert d k v) = List.lookup k' d := by
  unfold dictInsert
  by_cases hmem : k ∈ d.map Prod.fst
  · rw [if_pos (contains_eq_true_iff.mpr hmem)]
    induction d with
    | nil => simp
    | cons p d ih =>
      rcases eq_or_ne p.1 k with hp | hp
      · have hk'p : (k' == p.1) = false := beq_eq_false_iff_ne.mpr (hp ▸ h)
        have hk'k : (k' == k) = false := beq_eq_false_iff_ne.mpr h
        simp only [List.map_cons]
        rw [if_pos hp]
        simp only [List.lookup, hk'k, hk'p]
        by_cases hm2 : k ∈ d.map Prod.fst
        · exact ih hm2
        · have hfix : d.map (fun p => if p.1 = k then (k, v) else p) = d.map id := by
            apply List.map_congr_left
            intro x hx
            have hxk : ¬ x.1 = k := by
              intro hh
              exact hm2 (by simp only [List.mem_map]; exact ⟨x, hx, hh⟩)
            rw [if_neg hxk]
            rfl
          rw [hfix, List.map_id]
      · have hkp2 : (k' == p.1) = (k' == p.1) := rfl
        simp only [List.map_cons]
        rw [if_neg hp]
        simp only [List.lookup]
        cases hkp : (k' == p.1) with
        | true => rfl
        | false =>
          have hm2 : k ∈ d.map Prod.fst := by
            simp only [List.map_cons, List.mem_cons] at hmem
            rcases hmem with h1 | h1
            · exact absurd h1.symm hp
            · exact h1
          exact ih hm2
  · rw [if_neg (fun hh => hmem (contains_eq_true_iff.mp hh))]
    induction d with
    | nil =>
      have hk'k : (k' == k) = false := beq_eq_false_iff_ne.mpr h
      simp [List.lookup, hk'k]
    | cons p d ih =>
      have hm' : k ∉ d.map Prod.fst := fun hh => hmem (by simp only [List.map_cons, List.mem_cons]; right; exact hh)
      simp only [List.cons_append, List.lookup]
      cases hkp : (k' == p.1) with
      | true => rfl
      | false => exact ih hm'

theorem dictInsert_keys (d : List (Str × Str)) (k v : Str) :
    (dictInsert d k v).map Prod.fst =
      if k ∈ d.map Prod.fst then d.map Prod.fst else d.map Prod.fst ++ [k] := by
  unfold dictInsert
  by_cases hmem : k ∈ d.map Prod.fst
  · rw [if_pos (contains_eq_true_iff.mpr hmem), if_pos hmem]
    induction d with
    | nil => simp
    | cons p d ih =>
      simp only [List.map_cons]
      rcases eq_or_ne p.1 k with hp | hp
      · rw [if_pos hp]
        by_cases hm2 : k ∈ d.map Prod.fst
        · simp only [List.map_cons, List.cons.injEq]
          exact ⟨hp.symm, by simpa using ih hm2⟩
        · have hfix : d.map (fun p => if p.1 = k then (k, v) else p) = d.map id := by
            apply List.map_congr_left
            intro x hx
            have hxk : ¬ x.1 = k := fun hh =>
              hm2 (by simp only [List.mem_map]; exact ⟨x, hx, hh⟩)
            rw [if_neg hxk]
            rfl
          simp only [List.map_cons, hfix, List.map_id, List.cons.injEq]
          exact ⟨hp.symm, trivial⟩
      · rw [if_neg hp]
        have hm2 : k ∈ d.map Prod.fst := by
          simp only [List.map_cons, List.mem_cons] at hmem
          rcases hmem with h1 | h1
          · exact absurd h1.symm hp
          · exact h1
        simp only [List.map_cons, List.cons.injEq]
        exact ⟨trivial, by simpa using ih hm2⟩
  · rw [if_neg (fun hh => hmem (contains_eq_true_iff.mp hh)), if_neg hmem]
    simp

theorem dictInsert_keys_nodup {d : List (Str × Str)} (k v : Str)
    (h : (d.map Prod.fst).Nodup) : ((dictInsert d k v).map Prod.fst).Nodup := by
  rw [dictInsert_keys]
  by_cases hmem : k ∈ d.map Prod.fst
  · rw [if_pos hmem]; exact h
  · rw [if_neg hmem]
    apply List.Nodup.append h (List.nodup_singleton k)
    intro a ha hak
    exact hmem ((List.mem_singleton.mp hak) ▸ ha)

theorem buildDict_keys_nodup (pairs : List (Str × Str)) :
    ((buildDict pairs).map Prod.fst).Nodup := by
  unfold buildDict
  have hgen : ∀ (ps : List (Str × Str)) (d : List (Str × Str)),
      (d.map Prod.fst).Nodup →
      ((ps.foldl (fun d p => dictInsert d p.1 p.2) d).map Prod.fst).Nodup := by
    intro ps
    induction ps with
    | nil => intro d hd; simpa using hd
    | cons p ps ih =>
      intro d hd
      exact ih (dictInsert d p.1 p.2) (dictInsert_keys_nodup p.1 p.2 hd)
  exact hgen pairs [] (by simp)

theorem lookup_foldl_of_no_key {l : List (Str × Str)} {k : Str}
    (h : ∀ p ∈ l, p.1 ≠ k) (d : List (Str × Str)) :
    List.lookup k (l.foldl (fun d p => dictInsert d p.1 p.2) d) = List.lookup k d := by
  induction l generalizing d with
  | nil => rfl
  | cons p l ih =>
    have hp : p.1 ≠ k := h p (List.mem_cons_self p l)
    have hl : ∀ q ∈ l, q.1 ≠ k := fun q hq => h q (List.mem_cons_of_mem p hq)
    simp only [List.foldl_cons]
    rw [ih hl]
    exact lookup_dictInsert_ne d p.2 (Ne.symm hp)

theorem buildDict_lookup_last {pairs l1 l2 : List (Str × Str)} {k v : Str}
    (hsplit : pairs = l1 ++ (k, v) :: l2) (hlast : ∀ p ∈ l2, p.1 ≠ k) :
    List.lookup k (buildDict pairs) = some v := by
  unfold buildDict
  rw [hsplit, List.foldl_append, List.foldl_cons]
  rw [lookup_foldl_of_no_key hlast]
  exact lookup_dictInsert_self _ k v

theorem mem_keys_of_lookup {d : List (Str × Str)} {k v : Str}
    (h : List.lookup k d = some v) : k ∈ d.map Prod.fst := by
  induction d with
  | nil => simp [List.lookup] at h
  | cons p d ih =>
    simp only [List.lookup] at h
    cases hkp : (k == p.1) with
    | true =>
      simp only [List.map_cons, List.mem_cons]
      exact Or.inl (eq_of_beq hkp)
    | false =>
      rw [hkp] at h
      simp only [List.map_cons, List.mem_cons]
      exact Or.inr (ih h)

theorem countP_eq_one_of_lookup {d : List (Str × Str)} {k v : Str}
    (hnd : (d.map Prod.fst).Nodup) (hlk : List.lookup k d = some v) :
    d.countP (fun p => p.1 == k) = 1 := by
  induction d with
  | nil => simp [List.lookup] at hlk
  | cons p d ih =>
    have hnd' : p.1 ∉ d.map Prod.fst ∧ (d.map Prod.fst).Nodup := by
      simpa using hnd
    simp only [List.lookup] at hlk
    cases hkp : (k == p.1) with
    | true =>
      have hk : k = p.1 := eq_of_beq hkp
      have hz : d.countP (fun q => q.1 == k) = 0 := by
        rw [List.countP_eq_zero]
        intro q hq
        have hqk : q.1 ≠ k := fun hh => hnd'.1 (hk ▸ hh ▸ (List.mem_map.mpr ⟨q, hq, rfl⟩))
        simpa using hqk
      rw [List.countP_cons]
      have hpk : (p.1 == k) = true := by simpa using hk.symm
      simp [hz, hpk]
    | false =>
      rw [hkp] at hlk
      have hpk : (p.1 == k) = false := by
        have : k ≠ p.1 := fun hh => by rw [hh] at hkp; simp at hkp
        simpa using fun hh => this hh.symm
      rw [List.countP_cons]
      simp [hpk, ih hnd'.2 hlk]

theorem parseSSF_arity_err {line : Str} (h : (splitChar '\t' line).length ≠ 5) :
    parseSSF line = Except.error (MwErr.valueError line) := by
  rcases hs5 : splitChar '\t' line with _ | ⟨a, _ | ⟨b, _ | ⟨c, _ | ⟨d, _ | ⟨e, _ | ⟨f, fs⟩⟩⟩⟩⟩⟩ <;>
    first
      | (exact absurd (by rw [hs5]; rfl) h)
      | simp [parseSSF, hs5]

/-- Claim C1: whenever the tokenizer completes without an error, the emitted
token sequence ends with the `#ENDSECTION` sentinel immediately followed by
the `!#ENDFILE` sentinel, the latter being the very last token, whether or
not the input contained an explicit end-of-file marker. -/
theorem claim_C1 (text : Str) (h : (tokenizer text).2 = none) :
    ∃ ts, (tokenizer text).1 = ts ++ [endSectionTok, endFileTok] :=
  run_success_suffix (splitChar '\n' text) Mode.normal h

theorem claim_C1_witness :
    (tokenizer (chars "")).2 = none ∧
      ∃ ts, (tokenizer (chars "")).1 = ts ++ [endSectionTok, endFileTok] :=
  ⟨by decide, claim_C1 (chars "") (by decide)⟩

/-- Claim C2: a data block opened by a line ending in `_START` emits, in
order, the open-marker token, one row token per intermediate line (keyed by
the first tab field, valued by the full tuple of tab fields), and the close
marker of the `_END` line; in particular the four-line
`MS_METABOLITE_DATA` block emits open marker, `Samples` row,
`1,2,4-benzenetriol` row and close marker, in that exact order. -/
theorem claim_C2 :
    (∀ (L : Str) (M : List Str) (E : Str) (rest : List Str),
        pyStartsWith L (chars "#") = false →
        pyStartsWith L (chars "SUBJECT_SAMPLE_FACTORS") = false →
        pyEndsWith L (chars "_START") = true →
        (∀ m ∈ M, pyEndsWith m (chars "_END") = false) →
        pyEndsWith E (chars "_END") = true →
        run Mode.normal (L :: (M ++ E :: rest)) =
          (Token.KeyValue L newlineVal ::
              (M.map rowToken ++
                Token.KeyValue (pyStrip E) newlineVal :: (run Mode.normal rest).1),
            (run Mode.normal rest).2)) ∧
    tokenizer
        (chars "MS_METABOLITE_DATA_START\nSamples\ts1\ts2\n1,2,4-benzenetriol\t10\t0\nMS_METABOLITE_DATA_END") =
      ([Token.KeyValue (chars "MS_METABOLITE_DATA_START") newlineVal,
        Token.KeyValue (chars "Samples")
          (Value.tup [chars "Samples", chars "s1", chars "s2"]),
        Token.KeyValue (chars "1,2,4-benzenetriol")
          (Value.tup [chars "1,2,4-benzenetriol", chars "10", chars "0"]),
        Token.KeyValue (chars "MS_METABOLITE_DATA_END") newlineVal,
        endSectionTok, endFileTok], none) := by
  constructor
  · intro L M E rest h1 h2 h3 h4 h5
    have hs : stepOf Mode.normal L = ⟨[Token.KeyValue L newlineVal], none, Mode.inBlock⟩ := by
      simpa [stepOf] using stepNormal_start h1 h2 h3
    rw [run_cons_ok (by rw [hs])]
    rw [hs, run_inBlock_closes h4 h5]
    simp
  · decide

theorem claim_C2_witness :
    run Mode.normal (chars "FOO_START" :: (([] : List Str) ++ chars "FOO_END" :: [])) =
      (Token.KeyValue (chars "FOO_START") newlineVal ::
          (([] : List Str).map rowToken ++
            Token.KeyValue (pyStrip (chars "FOO_END")) newlineVal :: (run Mode.normal []).1),
        (run Mode.normal []).2) :=
  claim_C2.1 (chars "FOO_START") [] (chars "FOO_END") [] (by decide) (by decide) (by decide)
    (by simp) (by decide)

/-- Claim C3: the sample `SUBJECT_SAMPLE_FACTORS` line yields exactly one
`SubjectSampleFactors` token with the stated fields, and any line starting
with the keyword whose tab split does not have exactly five fields makes
tokenization fail with the re-raised `ValueError` carrying the line. -/
theorem claim_C3 :
    (tokenizer (chars "SUBJECT_SAMPLE_FACTORS\tHuman\tLS-01\tAge:40|Sex:M\tRAW_FILE=abc.raw") =
      ([Token.SubjectSampleFactors (chars "SUBJECT_SAMPLE_FACTORS") (chars "Human")
          (chars "LS-01") [(chars "Age", chars "40"), (chars "Sex", chars "M")]
          [(chars "RAW_FILE", chars "abc.raw")], endSectionTok, endFileTok], none)) ∧
    (∀ (line : Str) (rest : List Str),
        pyStartsWith line (chars "SUBJECT_SAMPLE_FACTORS") = true →
        (splitChar '\t' line).length ≠ 5 →
        run Mode.normal (line :: rest) = ([], some (MwErr.valueError line))) := by
  constructor
  · decide
  · intro line rest h1 h2
    have hp := parseSSF_arity_err h2
    have hs : stepOf Mode.normal line = ⟨[], some (MwErr.valueError line), Mode.normal⟩ := by
      have hstep := stepNormal_ssf h1
      rw [hp] at hstep
      simpa [stepOf] using hstep
    rw [run_cons_err (by rw [hs])]
    rw [hs]

theorem claim_C3_witness :
    pyStartsWith (chars "SUBJECT_SAMPLE_FACTORS\tonly\tthree") (chars "SUBJECT_SAMPLE_FACTORS") = true ∧
    (splitChar '\t' (chars "SUBJECT_SAMPLE_FACTORS\tonly\tthree")).length ≠ 5 ∧
    run Mode.normal [chars "SUBJECT_SAMPLE_FACTORS\tonly\tthree"] =
      ([], some (MwErr.valueError (chars "SUBJECT_SAMPLE_FACTORS\tonly\tthree"))) :=
  ⟨by decide, by decide,
    claim_C3.2 (chars "SUBJECT_SAMPLE_FACTORS\tonly\tthree") [] (by decide) (by decide)⟩

theorem factorPairs_cons_ok {seg k v : Str} {vs segs : List Str} {ps : List (Str × Str)}
    (hsp : splitChar ':' seg = k :: v :: vs) (hfp : factorPairs segs = Except.ok ps) :
    factorPairs (seg :: segs) = Except.ok ((pyStrip k, pyStrip v) :: ps) := by
  simp only [factorPairs]
  rw [hsp]
  simp [hfp]

theorem factorPairs_cons_err {seg k v : Str} {vs segs : List Str} {e : MwErr}
    (hsp : splitChar ':' seg = k :: v :: vs) (hfp : factorPairs segs = Except.error e) :
    factorPairs (seg :: segs) = Except.error e := by
  simp only [factorPairs]
  rw [hsp]
  simp [hfp]

theorem takeWhile_ne_of_not_mem {c : Char} {l : Str} (h : c ∉ l) :
    l.takeWhile (fun x => x != c) = l := by
  induction l with
  | nil => rfl
  | cons a l ih =>
    have ha : (a != c) = true := by
      simp only [bne_iff_ne, ne_eq]
      exact fun hh => h (hh ▸ List.mem_cons_self a l)
    have hl : c ∉ l := fun hh => h (List.mem_cons_of_mem a hh)
    simp [List.takeWhile_cons, ha, ih hl]

/-- Claim C4, counterexample: for the factors segment `Time:12:30` the code
keeps only the text between the first and second colons (`12`), not the
entirety of the text after the first colon (`12:30`) as the claim states. -/
theorem claim_C4_counterexample :
    tokenizer (chars "SUBJECT_SAMPLE_FACTORS\tHuman\tLS-01\tTime:12:30\tRAW_FILE=abc.raw") =
      ([Token.SubjectSampleFactors (chars "SUBJECT_SAMPLE_FACTORS") (chars "Human")
          (chars "LS-01") [(chars "Time", chars "12")]
          [(chars "RAW_FILE", chars "abc.raw")], endSectionTok, endFileTok], none) ∧
    afterColon (chars "Time:12:30") = chars "12:30" ∧
    chars "12" ≠ chars "12:30" := by
  refine ⟨by decide, by decide, by decide⟩

/-- Claim C4 as amended: each factors segment containing a colon contributes
the pair whose key is the trimmed text before the first colon and whose
value is the trimmed text between the first and second colons (everything
from the second colon on is dropped). -/
theorem claim_C4 :
    ∀ (seg : Str) (segs : List Str), seg.contains ':' = true →
      factorPairs (seg :: segs) =
        (factorPairs segs).map
          (fun ps => (pyStrip (beforeColon seg), pyStrip (betweenColons seg)) :: ps) := by
  intro seg segs hc
  have hmem : ':' ∈ seg := contains_eq_true_iff.mp hc
  have hsp := splitChar_of_mem hmem
  obtain ⟨r, rs, hrs⟩ : ∃ r rs,
      splitChar ':' ((seg.dropWhile (fun c => c != ':')).tail) = r :: rs := by
    cases hx : splitChar ':' ((seg.dropWhile (fun c => c != ':')).tail) with
    | nil => exact absurd hx splitChar_ne_nil
    | cons r rs => exact ⟨r, rs, rfl⟩
  have hr : r = betweenColons seg := by
    by_cases h2 : ':' ∈ (seg.dropWhile (fun c => c != ':')).tail
    · have hx := splitChar_of_mem h2
      rw [hrs] at hx
      have := List.cons.injEq .. ▸ hx
      exact this.1
    · have hx := splitChar_of_not_mem h2
      rw [hrs] at hx
      have h1 := (List.cons.injEq .. ▸ hx).1
      unfold betweenColons beforeColon afterColon
      rw [takeWhile_ne_of_not_mem h2]
      exact h1
  rw [hrs] at hsp
  cases hfp : factorPairs segs with
  | ok ps =>
    rw [factorPairs_cons_ok hsp hfp]
    simp [hr, beforeColon, Except.map]
  | error e =>
    rw [factorPairs_cons_err hsp hfp]
    simp [Except.map]

theorem claim_C4_witness :
    factorPairs [chars "Time:12:30"] =
      (factorPairs []).map
        (fun ps => (pyStrip (beforeColon (chars "Time:12:30")),
          pyStrip (betweenColons (chars "Time:12:30"))) :: ps) :=
  claim_C4 (chars "Time:12:30") [] (by decide)

/-- Claim C5, counterexample: the item line `AB:KEY<TAB>v1<TAB>v2` has two
tabs (three tab fields) and no `_RESULTS_FILE`, yet tokenization fails with
the re-raised `ValueError` and emits no token at all, instead of emitting a
token whose value is the text after the first tab. -/
theorem claim_C5_counterexample :
    3 ≤ (splitChar '\t' (chars "AB:KEY\tv1\tv2")).length ∧
    containsSeq (chars "_RESULTS_FILE") (chars "AB:KEY\tv1\tv2") = false ∧
    tokenizer (chars "AB:KEY\tv1\tv2") =
      ([], some (MwErr.valueError (chars "AB:KEY\tv1\tv2"))) := by
  refine ⟨by decide, by decide, by decide⟩

/-- Claim C5 as amended: an item line (matching none of the earlier rules,
non-empty, without `_RESULTS_FILE`) that tab-splits into exactly two fields
emits the key/value token with the key normalisation of lines 102-108; a
line whose tab split has three or more fields (more than one tab) is a
fatal parse error instead. -/
theorem claim_C5 :
    (∀ (line k v : Str) (rest : List Str),
        pyStartsWith line (chars "#") = false →
        pyStartsWith line (chars "SUBJECT_SAMPLE_FACTORS") = false →
        pyEndsWith line (chars "_START") = false →
        containsSeq (chars "_RESULTS_FILE") line = false →
        splitChar '\t' line = [k, v] →
        run Mode.normal (line :: rest) =
          ((if k.contains ':' then
              if pyEndsWith k (chars "_METABOLITE_DATA:UNITS") then
                Token.KeyValue (chars "Units") (Value.str v)
              else Token.KeyValue ((pyStrip k).drop 3) (Value.str v)
            else Token.KeyValue (pyStrip k) (Value.str v)) :: (run Mode.normal rest).1,
            (run Mode.normal rest).2)) ∧
    (∀ (line : Str) (rest : List Str),
        pyStartsWith line (chars "#") = false →
        pyStartsWith line (chars "SUBJECT_SAMPLE_FACTORS") = false →
        pyEndsWith line (chars "_START") = false →
        containsSeq (chars "_RESULTS_FILE") line = false →
        3 ≤ (splitChar '\t' line).length →
        run Mode.normal (line :: rest) = ([], some (MwErr.valueError line))) := by
  constructor
  · intro line k v rest h1 h2 h3 h4 h5
    have hne : ¬ line = [] := by
      intro hh
      rw [hh] at h5
      simp [splitChar] at h5
    have hitem : stepItem line =
        ([if k.contains ':' then
            if pyEndsWith k (chars "_METABOLITE_DATA:UNITS") then
              Token.KeyValue (chars "Units") (Value.str v)
            else Token.KeyValue ((pyStrip k).drop 3) (Value.str v)
          else Token.KeyValue (pyStrip k) (Value.str v)], none) := by
      unfold stepItem
      rw [if_neg hne, if_neg (by simp [h4]), h5]
      by_cases hcm : ':' ∈ k
      · by_cases hu : pyEndsWith k (chars "_METABOLITE_DATA:UNITS")
        · simp [hcm, hu]
        · simp [hcm, hu]
      · simp [hcm]
    have hs : stepOf Mode.normal line =
        ⟨(stepItem line).1, (stepItem line).2, Mode.normal⟩ := by
      simpa [stepOf] using stepNormal_item h1 h2 h3
    rw [hitem] at hs
    rw [run_cons_ok (by rw [hs])]
    rw [hs]
    simp
  · intro line rest h1 h2 h3 h4 h5
    have hne : ¬ line = [] := by
      intro hh
      rw [hh] at h5
      simp [splitChar] at h5
    have hitem : stepItem line = ([], some (MwErr.valueError line)) := by
      unfold stepItem
      rw [if_neg hne, if_neg (by simp [h4])]
      rcases hsp : splitChar '\t' line with _ | ⟨a, _ | ⟨b, _ | ⟨c, cs⟩⟩⟩
      · exact absurd hsp splitChar_ne_nil
      · rfl
      · exfalso
        rw [hsp] at h5
        simp at h5
      · rfl
    have hs : stepOf Mode.normal line =
        ⟨(stepItem line).1, (stepItem line).2, Mode.normal⟩ := by
      simpa [stepOf] using stepNormal_item h1 h2 h3
    rw [hitem] at hs
    rw [run_cons_err (by rw [hs])]
    rw [hs]

theorem claim_C5_witness :
    (run Mode.normal [chars "PR:PROJECT_TITLE\tMy Study"] =
      ((if (chars "PR:PROJECT_TITLE").contains ':' then
          if pyEndsWith (chars "PR:PROJECT_TITLE") (chars "_METABOLITE_DATA:UNITS") then
            Token.KeyValue (chars "Units") (Value.str (chars "My Study"))
          else Token.KeyValue ((pyStrip (chars "PR:PROJECT_TITLE")).drop 3)
            (Value.str (chars "My Study"))
        else Token.KeyValue (pyStrip (chars "PR:PROJECT_TITLE"))
          (Value.str (chars "My Study"))) :: (run Mode.normal []).1,
        (run Mode.normal []).2)) ∧
    run Mode.normal [chars "K\ta\tb"] = ([], some (MwErr.valueError (chars "K\ta\tb"))) :=
  ⟨claim_C5.1 (chars "PR:PROJECT_TITLE\tMy Study") (chars "PR:PROJECT_TITLE")
      (chars "My Study") [] (by decide) (by decide) (by decide) (by decide) (by decide),
    claim_C5.2 (chars "K\ta\tb") [] (by decide) (by decide) (by decide) (by decide) (by decide)⟩

/-- Claim C6, counterexample: on the line `#METABOLOMICS WORKBENCH AAA` the
identifier `AAA` contains no colon, yet tokenization succeeds (no error)
and simply skips it, emitting only the file-header marker and the final
sentinels — it does not fail as the claim states. -/
theorem claim_C6_counterexample :
    (chars "AAA") ∈ splitChar ' ' (chars "#METABOLOMICS WORKBENCH AAA") ∧
    (chars "AAA").contains ':' = false ∧
    tokenizer (chars "#METABOLOMICS WORKBENCH AAA") =
      ([Token.KeyValue (chars "#METABOLOMICS WORKBENCH") newlineVal,
        endSectionTok, endFileTok], none) := by
  refine ⟨by decide, by decide, by decide⟩

/-- Claim C6 as amended: on a `#METABOLOMICS WORKBENCH` line, space-separated
identifiers without a colon are silently skipped (no token, no error); an
identifier whose colon split has exactly two parts yields one `KeyValue`;
an identifier with more than one colon is a fatal parse error reporting the
line; the header tokens follow the file-header marker token in the run. -/
theorem contains_eq_false_iff {α : Type} [BEq α] [LawfulBEq α] {l : List α} {a : α} :
    l.contains a = false ↔ a ∉ l := by
  rw [← Bool.not_eq_true]
  exact not_congr contains_eq_true_iff

theorem claim_C6 :
    (∀ (line ident : Str) (ids1 ids2 : List Str), ident.contains ':' = false →
        headerIds line (ids1 ++ ident :: ids2) = headerIds line (ids1 ++ ids2)) ∧
    (∀ (line ident : Str) (ids : List Str) (k v : Str), splitChar ':' ident = [k, v] →
        headerIds line (ident :: ids) =
          (Token.KeyValue k (Value.str v) :: (headerIds line ids).1,
            (headerIds line ids).2)) ∧
    (∀ (line ident : Str) (ids : List Str), 3 ≤ (splitChar ':' ident).length →
        headerIds line (ident :: ids) = ([], some (MwErr.valueError line))) ∧
    (∀ (line : Str) (rest : List Str),
        pyStartsWith line (chars "#METABOLOMICS WORKBENCH") = true →
        (headerIds line (splitChar ' ' line)).2 = none →
        run Mode.normal (line :: rest) =
          (Token.KeyValue (chars "#METABOLOMICS WORKBENCH") newlineVal ::
              (headerIds line (splitChar ' ' line)).1 ++ (run Mode.normal rest).1,
            (run Mode.normal rest).2)) ∧
    (∀ (line : Str) (rest : List Str) (e : MwErr),
        pyStartsWith line (chars "#METABOLOMICS WORKBENCH") = true →
        (headerIds line (splitChar ' ' line)).2 = some e →
        run Mode.normal (line :: rest) =
          (Token.KeyValue (chars "#METABOLOMICS WORKBENCH") newlineVal ::
              (headerIds line (splitChar ' ' line)).1, some e)) := by
  refine ⟨?_, ?_, ?_, ?_, ?_⟩
  · intro line ident ids1 ids2 hci
    have hnm : ':' ∉ ident := contains_eq_false_iff.mp hci
    induction ids1 with
    | nil => simp [headerIds, hnm]
    | cons i ids1 ih =>
      simp only [List.cons_append, headerIds]
      by_cases hcm : ':' ∈ i
      · rcases hsi : splitChar ':' i with _ | ⟨k, _ | ⟨v, _ | ⟨w, ws⟩⟩⟩ <;>
          simp [hcm, hsi, ih]
      · simp [hcm, ih]
  · intro line ident ids k v hsp
    have hcm : ':' ∈ ident := mem_of_two_le_splitChar (by rw [hsp]; simp)
    simp [headerIds, hcm, hsp]
  · intro line ident ids h3
    have hcm : ':' ∈ ident := mem_of_two_le_splitChar (le_trans (by decide) h3)
    rcases hsp : splitChar ':' ident with _ | ⟨k, _ | ⟨v, _ | ⟨w, ws⟩⟩⟩
    · exact absurd hsp splitChar_ne_nil
    · exfalso
      rw [hsp] at h3
      simp at h3
    · exfalso
      rw [hsp] at h3
      simp at h3
    · simp [headerIds, hcm, hsp]
  · intro line rest h he
    have hs : stepOf Mode.normal line =
        ⟨Token.KeyValue (chars "#METABOLOMICS WORKBENCH") newlineVal ::
            (headerIds line (splitChar ' ' line)).1,
          (headerIds line (splitChar ' ' line)).2, Mode.normal⟩ := by
      simpa [stepOf] using stepNormal_header h
    rw [he] at hs
    rw [run_cons_ok (by rw [hs])]
    rw [hs]
  · intro line rest e h he
    have hs : stepOf Mode.normal line =
        ⟨Token.KeyValue (chars "#METABOLOMICS WORKBENCH") newlineVal ::
            (headerIds line (splitChar ' ' line)).1,
          (headerIds line (splitChar ' ' line)).2, Mode.normal⟩ := by
      simpa [stepOf] using stepNormal_header h
    rw [he] at hs
    rw [run_cons_err (by rw [hs])]
    rw [hs]

theorem claim_C6_witness :
    headerIds (chars "#METABOLOMICS WORKBENCH AAA")
        ([chars "#METABOLOMICS", chars "WORKBENCH"] ++ chars "AAA" :: []) =
      headerIds (chars "#METABOLOMICS WORKBENCH AAA")
        ([chars "#METABOLOMICS", chars "WORKBENCH"] ++ []) ∧
    headerIds (chars "h") (chars "STUDY_ID:ST1" :: []) =
      (Token.KeyValue (chars "STUDY_ID") (Value.str (chars "ST1")) ::
          (headerIds (chars "h") []).1, (headerIds (chars "h") []).2) ∧
    headerIds (chars "h") (chars "a:b:c" :: []) =
      ([], some (MwErr.valueError (chars "h"))) ∧
    run Mode.normal [chars "#METABOLOMICS WORKBENCH S:1"] =
      (Token.KeyValue (chars "#METABOLOMICS WORKBENCH") newlineVal ::
          (headerIds (chars "#METABOLOMICS WORKBENCH S:1")
              (splitChar ' ' (chars "#METABOLOMICS WORKBENCH S:1"))).1 ++
            (run Mode.normal []).1,
        (run Mode.normal []).2) ∧
    run Mode.normal [chars "#METABOLOMICS WORKBENCH a:b:c"] =
      (Token.KeyValue (chars "#METABOLOMICS WORKBENCH") newlineVal ::
          (headerIds (chars "#METABOLOMICS WORKBENCH a:b:c")
              (splitChar ' ' (chars "#METABOLOMICS WORKBENCH a:b:c"))).1,
        some (MwErr.valueError (chars "#METABOLOMICS WORKBENCH a:b:c"))) := by
  refine ⟨claim_C6.1 (chars "#METABOLOMICS WORKBENCH AAA") (chars "AAA")
      [chars "#METABOLOMICS", chars "WORKBENCH"] [] (by decide),
    claim_C6.2.1 (chars "h") (chars "STUDY_ID:ST1") [] (chars "STUDY_ID") (chars "ST1")
      (by decide),
    claim_C6.2.2.1 (chars "h") (chars "a:b:c") [] (by decide),
    claim_C6.2.2.2.1 (chars "#METABOLOMICS WORKBENCH S:1") [] (by decide) (by decide),
    claim_C6.2.2.2.2 (chars "#METABOLOMICS WORKBENCH a:b:c") []
      (MwErr.valueError (chars "#METABOLOMICS WORKBENCH a:b:c")) (by decide) (by decide)⟩

/-- Claim C7, counterexample: for the input `FOO_START` (an opened block
with no `_END` line) tokenization raises the bare deque-underflow
`IndexError`, a parameterless error that carries no information about the
offending block, unlike the line-carrying `ValueError` of malformed lines;
the open-marker token was already emitted and no sentinel follows. -/
theorem claim_C7_counterexample :
    tokenizer (chars "FOO_START") =
      ([Token.KeyValue (chars "FOO_START") newlineVal], some MwErr.popFromEmptyDeque) ∧
    some MwErr.popFromEmptyDeque ≠ some (MwErr.valueError (chars "FOO_START")) := by
  refine ⟨by decide, by decide⟩

/-- Claim C7 as amended: an input whose `_START` block never reaches an
`_END` line before the stream is exhausted raises the fatal
stream-exhaustion error (the `IndexError` of `popleft` on the empty deque,
which carries no offense information) rather than terminating silently, and
neither the `#ENDSECTION` nor the `!#ENDFILE` sentinel is ever emitted. -/
theorem claim_C7 (L : Str) (rest : List Str)
    (h1 : pyStartsWith L (chars "#") = false)
    (h2 : pyStartsWith L (chars "SUBJECT_SAMPLE_FACTORS") = false)
    (h3 : pyEndsWith L (chars "_START") = true)
    (h4 : ∀ l ∈ rest, pyEndsWith l (chars "_END") = false) :
    (run Mode.normal (L :: rest)).2 = some MwErr.popFromEmptyDeque ∧
    endSectionTok ∉ (run Mode.normal (L :: rest)).1 ∧
    endFileTok ∉ (run Mode.normal (L :: rest)).1 := by
  have hs : stepOf Mode.normal L = ⟨[Token.KeyValue L newlineVal], none, Mode.inBlock⟩ := by
    simpa [stepOf] using stepNormal_start h1 h2 h3
  rw [run_cons_ok (by rw [hs])]
  rw [hs, run_inBlock_no_end h4]
  refine ⟨rfl, ?_, ?_⟩
  · intro hmem
    simp only [StepRes.toks, List.cons_append, List.nil_append, List.mem_cons] at hmem
    rcases hmem with hmem | hmem
    · have hL : chars "#ENDSECTION" = L := by
        have := congrArg (fun t => match t with
          | Token.KeyValue k _ => k
          | _ => []) hmem
        simpa [endSectionTok] using this
      rw [← hL] at h3
      exact absurd h3 (by decide)
    · obtain ⟨l, _, hl⟩ := List.mem_map.mp hmem
      have := congrArg (fun t => match t with
        | Token.KeyValue _ (Value.tup _) => true
        | _ => false) hl
      simp [rowToken, endSectionTok, newlineVal] at this
  · intro hmem
    simp only [StepRes.toks, List.cons_append, List.nil_append, List.mem_cons] at hmem
    rcases hmem with hmem | hmem
    · have hL : chars "!#ENDFILE" = L := by
        have := congrArg (fun t => match t with
          | Token.KeyValue k _ => k
          | _ => []) hmem
        simpa [endFileTok] using this
      rw [← hL] at h3
      exact absurd h3 (by decide)
    · obtain ⟨l, _, hl⟩ := List.mem_map.mp hmem
      have := congrArg (fun t => match t with
        | Token.KeyValue _ (Value.tup _) => true
        | _ => false) hl
      simp [rowToken, endFileTok, newlineVal] at this

theorem claim_C7_witness :
    (run Mode.normal (chars "BAR_START" :: [])).2 = some MwErr.popFromEmptyDeque ∧
    endSectionTok ∉ (run Mode.normal (chars "BAR_START" :: [])).1 ∧
    endFileTok ∉ (run Mode.normal (chars "BAR_START" :: [])).1 :=
  claim_C7 (chars "BAR_START") [] (by decide) (by decide) (by decide) (by simp)

/-- Claim C8: the `factors` and `additional_sample_data` mappings of every
emitted `SubjectSampleFactors` token are Python dicts built by
`buildDict`; and for any pair list, if `(k, v)` is the last pair with key
`k`, the built dict maps `k` to `v` and contains `k` exactly once
(last-write-wins). -/
theorem claim_C8 :
    (∀ (line : Str) (tok : Token), parseSSF line = Except.ok tok →
        ∃ k st ls fps aps,
          tok = Token.SubjectSampleFactors k st ls (buildDict fps) (buildDict aps)) ∧
    (∀ (pairs l1 l2 : List (Str × Str)) (k v : Str),
        pairs = l1 ++ (k, v) :: l2 → (∀ p ∈ l2, p.1 ≠ k) →
        List.lookup k (buildDict pairs) = some v ∧
        (buildDict pairs).countP (fun p => p.1 == k) = 1) := by
  constructor
  · intro line tok h
    rcases hs5 : splitChar '\t' line with _ | ⟨a, _ | ⟨b, _ | ⟨c, _ | ⟨d, _ | ⟨e, _ | ⟨f, fs⟩⟩⟩⟩⟩⟩ <;>
      simp only [parseSSF, hs5] at h <;> try cases h
    cases hfp : factorPairs (splitChar '|' d) with
    | error err => rw [hfp] at h; cases h
    | ok fps =>
      rw [hfp] at h
      cases hap : additionalPairs line (splitChar ';' e) with
      | error err => rw [hap] at h; cases h
      | ok aps =>
        rw [hap] at h
        cases h
        exact ⟨pyStrip a, b, c, fps, aps, rfl⟩
  · intro pairs l1 l2 k v hsplit hlast
    have hlk := buildDict_lookup_last hsplit hlast
    exact ⟨hlk, countP_eq_one_of_lookup (buildDict_keys_nodup pairs) hlk⟩

theorem claim_C8_witness :
    (∃ k st ls fps aps,
        Token.SubjectSampleFactors (chars "SUBJECT_SAMPLE_FACTORS") (chars "a") (chars "b")
            [(chars "A", chars "2")] [(chars "x", chars "1")] =
          Token.SubjectSampleFactors k st ls (buildDict fps) (buildDict aps)) ∧
    (List.lookup (chars "A")
        (buildDict [(chars "A", chars "1"), (chars "A", chars "2")]) = some (chars "2") ∧
      (buildDict [(chars "A", chars "1"), (chars "A", chars "2")]).countP
        (fun p => p.1 == chars "A") = 1) :=
  ⟨claim_C8.1 (chars "SUBJECT_SAMPLE_FACTORS\ta\tb\tA:1|A:2\tx=1") _ rfl,
    claim_C8.2 [(chars "A", chars "1"), (chars "A", chars "2")] [(chars "A", chars "1")] []
      (chars "A") (chars "2") (by decide) (by simp)⟩

/-- Claim C9: an empty line outside a data block is skipped (no token),
while an empty line inside an open `_START` block yields a row `KeyValue`
token whose key is the empty string and whose value is the one-element
tuple containing the empty string. -/
theorem claim_C9 :
    (∀ rest : List Str, run Mode.normal (([] : Str) :: rest) = run Mode.normal rest) ∧
    (∀ rest : List Str, run Mode.inBlock (([] : Str) :: rest) =
        (Token.KeyValue ([] : Str) (Value.tup [([] : Str)]) :: (run Mode.inBlock rest).1,
          (run Mode.inBlock rest).2)) := by
  constructor
  · intro rest
    have hs : stepOf Mode.normal ([] : Str) = ⟨[], none, Mode.normal⟩ := by decide
    rw [run_cons_ok (by rw [hs])]
    rw [hs]
    simp
  · intro rest
    have hs : stepOf Mode.inBlock ([] : Str) =
        ⟨[Token.KeyValue ([] : Str) (Value.tup [([] : Str)])], none, Mode.inBlock⟩ := by decide
    rw [run_cons_ok (by rw [hs])]
    rw [hs]
    simp

/-- Claim C10: tokenizing the empty text succeeds and emits exactly the two
sentinel tokens, `#ENDSECTION` then `!#ENDFILE`, both with value `"\n"`. -/
theorem claim_C10 :
    tokenizer (chars "") = ([endSectionTok, endFileTok], none) ∧
    endSectionTok = Token.KeyValue (chars "#ENDSECTION") (Value.str (chars "\n")) ∧
    endFileTok = Token.KeyValue (chars "!#ENDFILE") (Value.str (chars "\n")) := by
  refine ⟨by decide, by decide, by decide⟩

end Mwtab
